import Mathlib

/-!
Verification of the OnScale cloud client's job-submission workflow, account
directory, job handle and progress tracker, as described by the repository's
specification, documentation and example notebooks.  The `onscale_client`
package itself is not part of the material under verification (only its
documentation and example callers are), so the operational definitions below
are modelled from the specification's words, and the status-polling loop is
transcribed from the `sim_api_example` notebook.
-/

namespace OnScale

/-- Enumerated remote job status (spec §3: "queued, running, finished,
failed, stopped"). -/
inductive JobStatus where
  | queued
  | running
  | finished
  | failed
  | stopped
  deriving DecidableEq, Repr

/-- Modelled from the spec: terminal statuses are finished, failed and
stopped; queued and running are non-terminal (spec §4.5). -/
def JobStatus.isTerminal : JobStatus → Bool
  | .finished => true
  | .failed => true
  | .stopped => true
  | _ => false

/-- Modelled from the spec: a remote job record (spec §3 "Job"): a
server-assigned id, a name, the set of stored files addressable by name, a
mutable status, whether execution has been requested, and whether a
cancellation request has been issued. -/
structure JobRecord where
  jobId : Nat
  jobName : String
  files : List String
  submitted : Bool
  status : JobStatus
  cancelRequested : Bool
  deriving DecidableEq, Repr

/-- Modelled from the spec: the remote platform's job store, as far as this
client observes it — the next id the platform will assign and the list of
allocated job records (spec §4.4). -/
structure CloudState where
  nextJobId : Nat
  jobs : List JobRecord
  deriving DecidableEq, Repr

/-- Well-formedness of the observed platform state: every allocated job id
is below the next id to be assigned, so server-assigned ids are unique. -/
def CloudState.wf (st : CloudState) : Bool :=
  st.jobs.all (fun r => r.jobId < st.nextJobId)

/-- Modelled from the spec: a simulation payload handed to the submission
workflow — the serialized simulation description (opaque at this layer) plus
the names of the referenced auxiliary files (spec §4.3). -/
structure Payload where
  content : String
  auxFiles : List String
  deriving DecidableEq, Repr

/-- Modelled from the spec: the primary file of an Upload Bundle "is always
named deterministically from the eventual job id" (spec §4.3); the
`custom_moebius_workflow` notebook shows the concrete scheme: the job id
followed by a .py suffix. -/
def primaryFileName (jobId : Nat) : String :=
  toString jobId ++ ".py"

/-- Modelled from the spec: an Upload Bundle — exactly one primary
solver-input file plus zero or more auxiliary files (spec §3). -/
structure Bundle where
  primary : String
  aux : List String
  deriving DecidableEq, Repr

/-- Modelled from the spec: bundle finalization — the primary file is named
from the job id assigned at job-record creation, and the auxiliary files
referenced by the payload are appended unchanged (spec §4.3). -/
def finalizeBundle (jobId : Nat) (p : Payload) : Bundle :=
  { primary := primaryFileName jobId, aux := p.auxFiles }

/-- Modelled from the spec: CREATED step of the submission workflow —
"remote job record allocated, id obtained" (spec §4.4).  The platform
assigns the next id and appends a fresh, unsubmitted record. -/
def createJobRecord (st : CloudState) (jobName : String) :
    JobRecord × CloudState :=
  let r : JobRecord :=
    { jobId := st.nextJobId, jobName := jobName, files := [],
      submitted := false, status := .queued, cancelRequested := false }
  (r, { nextJobId := st.nextJobId + 1, jobs := st.jobs ++ [r] })

/-- Modelled from the spec: `get_job(job_id)` retrieves the job record with
the given id (client.rst lists `get_job`; spec §8). -/
def get_job (st : CloudState) (id : Nat) : Option JobRecord :=
  st.jobs.find? (fun r => r.jobId == id)

/-- Apply an update to the job record with the given id, leaving every
other record unchanged. -/
def updateJob (st : CloudState) (id : Nat) (f : JobRecord → JobRecord) :
    CloudState :=
  { st with jobs := st.jobs.map (fun r => if r.jobId == id then f r else r) }

/-- Errors surfaced by the submission workflow (spec §7). -/
inductive SubmitError where
  | budgetExceeded
  | uploadFailed (file : String)
  | estimateFailed
  deriving DecidableEq, Repr

/-- Modelled from the spec: one submission attempt of the Job Submission
Workflow (spec §4.4): allocate the remote job record (id obtained), finalize
the bundle from that id, upload the bundle files, obtain the remote cost
estimate `est`, compare it against the caller's `max_spend` ceiling —
exceeding it aborts with BudgetExceededError before SUBMITTED, leaving the
record allocated but not executed — and otherwise request execution and
return the job id. -/
def submit (st : CloudState) (jobName : String) (p : Payload) (est : Nat)
    (max_spend : Option Nat) : Except SubmitError Nat × CloudState :=
  let (r, st1) := createJobRecord st jobName
  let b := finalizeBundle r.jobId p
  let st2 := updateJob st1 r.jobId
    (fun j => { j with files := b.primary :: b.aux })
  match max_spend with
  | some ceiling =>
      if ceiling < est then
        (.error .budgetExceeded, st2)
      else
        (.ok r.jobId, updateJob st2 r.jobId (fun j => { j with submitted := true }))
  | none =>
      (.ok r.jobId, updateJob st2 r.jobId (fun j => { j with submitted := true }))

/-- The job record a submission attempt starting from state `st` leaves in
the job store: the freshly assigned id, the finalized bundle files, and the
submission flag `b` (true when execution was requested, false when the
workflow aborted first). -/
def submittedRecord (st : CloudState) (jobName : String) (p : Payload)
    (b : Bool) : JobRecord :=
  { jobId := st.nextJobId, jobName := jobName,
    files := primaryFileName st.nextJobId :: p.auxFiles,
    submitted := b, status := .queued, cancelRequested := false }

/-- Modelled from the spec: an HPC Descriptor — "immutable record {id,
active flag, cloud provider, cluster name, description, region, storage
bucket}" (spec §3). -/
structure HpcDescriptor where
  hpcId : String
  active : Bool
  hpcCloud : String
  hpcClusterName : String
  description : String
  hpcRegion : String
  storageBucket : String
  deriving DecidableEq, Repr

/-- Modelled from the spec: an Account — "identified by a stable id and a
human-readable name (names are not guaranteed unique)"; holds the HPC
resources available to it (spec §3). -/
structure Account where
  accountId : String
  accountName : String
  hpcList : List HpcDescriptor
  deriving DecidableEq, Repr

/-- Modelled from the spec: the Account Directory's session-scoped state —
the cached ordered account listing and the currently selected account
(spec §4.2). -/
structure ClientState where
  accounts : List Account
  currentAccount : Option Account
  deriving DecidableEq, Repr

/-- Errors surfaced by the Account Directory (spec §4.2, §7). -/
inductive ClientError where
  | valueError
  | notFoundError
  deriving DecidableEq, Repr

/-- Modelled from the spec: `list_accounts()` returns the ordered account
sequence cached for the session (spec §4.2). -/
def list_accounts (st : ClientState) : List Account :=
  st.accounts

/-- Modelled from the spec: `set_current(by name OR id)` — "exactly one of
the two selectors must be provided; fails with ValueError if both or
neither given, fails with NotFoundError if the selector matches zero
accounts", picking the first match in listed order when a name is
ambiguous (spec §4.2). -/
def set_current_account (st : ClientState) (account_name : Option String)
    (account_id : Option String) : Except ClientError ClientState :=
  match account_name, account_id with
  | some _, some _ => .error .valueError
  | none, none => .error .valueError
  | some n, none =>
      match st.accounts.find? (fun a => a.accountName == n) with
      | some a => .ok { st with currentAccount := some a }
      | none => .error .notFoundError
  | none, some i =>
      match st.accounts.find? (fun a => a.accountId == i) with
      | some a => .ok { st with currentAccount := some a }
      | none => .error .notFoundError

/-- The state observed after calling `set_current_account`: on failure the
exception propagates and the directory's state is left as it was. -/
def runSetCurrent (st : ClientState) (account_name : Option String)
    (account_id : Option String) : ClientState :=
  match set_current_account st account_name account_id with
  | .ok st1 => st1
  | .error _ => st

/-- Modelled from the spec: `hpc_list(account)` — the ordered sequence of
HPC Descriptors of the current account (spec §4.2); empty when no account
is selected. -/
def get_hpc_list (st : ClientState) : List HpcDescriptor :=
  match st.currentAccount with
  | some a => a.hpcList
  | none => []

/-- Modelled from the spec: `available_hpc_clouds()` derives the
de-duplicated set of cloud providers from the HPC listing (spec §4.2). -/
def available_hpc_clouds (st : ClientState) : List String :=
  ((get_hpc_list st).map (fun h => h.hpcCloud)).dedup

/-- Modelled from the spec: `available_hpc_regions()` derives the
de-duplicated set of regions from the HPC listing (spec §4.2). -/
def available_hpc_regions (st : ClientState) : List String :=
  ((get_hpc_list st).map (fun h => h.hpcRegion)).dedup

/-- Outcome reported by `Job.stop` (spec §4.5). -/
inductive StopResult where
  | alreadyTerminal
  | cancellationRequested
  deriving DecidableEq, Repr

/-- Modelled from the spec: `stop()` — "request cancellation; valid only
while status is in a non-terminal state, otherwise a no-op that reports the
job was already terminal" (spec §4.5). -/
def JobRecord.stop (j : JobRecord) : StopResult × JobRecord :=
  if j.status.isTerminal then
    (.alreadyTerminal, j)
  else
    (.cancellationRequested, { j with cancelRequested := true })

/-- Modelled from the spec: a Progress Entry — a "per-job mutable record of
{status, percent-complete}" (spec §3; `SimProgress` in job_progress.rst). -/
structure SimProgress where
  status : String
  progress : Nat
  deriving DecidableEq, Repr

/-- Modelled from the spec: the Progress Tracker's mapping from simulation
id to Progress Entry (`JobProgressManager` in job_progress.rst; spec §4.6). -/
structure JobProgressManager where
  sims : List (String × SimProgress)
  deriving DecidableEq, Repr

/-- Modelled from the spec: `sim_exists` tests whether an entry for the
given id is already tracked (job_progress.rst). -/
def sim_exists (m : JobProgressManager) (id : String) : Bool :=
  m.sims.any (fun p => p.1 == id)

/-- Modelled from the spec: `add_simulation(id)` "creates an entry if
absent (idempotent)" (spec §4.6); a fresh entry starts untracked progress. -/
def add_simulation (m : JobProgressManager) (id : String) :
    JobProgressManager :=
  if sim_exists m id then m
  else { sims := m.sims ++ [(id, { status := "QUEUED", progress := 0 })] }

/-- The status-polling loop of `sim_api_example.ipynb`, transcribed from
the notebook source: it reads `status()` and repeats while the string is
not exactly "FINISHED", calling `status()` again each iteration with no
sleep between calls.  `trace n` is the string the (n+1)-th `status()` call
returns; `fuel` bounds the number of calls observed; the result is the
index of the call that left the loop, if the loop exited within `fuel`
calls. -/
def pollLoop (trace : Nat → String) : Nat → Nat → Option Nat
  | 0, _ => none
  | fuel + 1, i => if trace i == "FINISHED" then some i else pollLoop trace fuel (i + 1)

/-- Modelled from the notebook: `Client.account_list` "is stored as a
dictionary which can be iterated over, or the account_name can be used as
the key to access accounts" (client_accounts_example.ipynb); inserting an
account under a name that is already a key replaces that key's value, as a
dictionary does. -/
def dictInsert (d : List (String × Account)) (k : String) (v : Account) :
    List (String × Account) :=
  if d.any (fun p => p.1 == k) then
    d.map (fun p => if p.1 == k then (k, v) else p)
  else d ++ [(k, v)]

/-- Modelled from the notebook: building `account_list` keyed by account
name from the visible accounts, in listed order. -/
def account_list (accounts : List Account) : List (String × Account) :=
  accounts.foldl (fun d a => dictInsert d a.accountName a) []

/-- Sample HPC descriptor used by concrete witnesses. -/
def hpcA : HpcDescriptor :=
  { hpcId := "h1", active := true, hpcCloud := "AWS", hpcClusterName := "c1",
    description := "cluster one", hpcRegion := "us-east-1",
    storageBucket := "b1" }

/-- Sample HPC descriptor sharing cloud and region with `hpcA`. -/
def hpcB : HpcDescriptor :=
  { hpcId := "h2", active := true, hpcCloud := "AWS", hpcClusterName := "c2",
    description := "cluster two", hpcRegion := "us-east-1",
    storageBucket := "b2" }

/-- Sample HPC descriptor with a distinct cloud and region. -/
def hpcC : HpcDescriptor :=
  { hpcId := "h3", active := false, hpcCloud := "GCP", hpcClusterName := "c3",
    description := "cluster three", hpcRegion := "eu-west-2",
    storageBucket := "b3" }

/-- Sample account "alpha" whose HPC listing holds duplicate clouds and
regions. -/
def acctA : Account :=
  { accountId := "id-a", accountName := "alpha", hpcList := [hpcA, hpcB, hpcC] }

/-- Sample account "beta". -/
def acctB : Account :=
  { accountId := "id-b", accountName := "beta", hpcList := [] }

/-- Sample account sharing the name "alpha" with `acctA` under a different
id. -/
def acctA2 : Account :=
  { accountId := "id-c", accountName := "alpha", hpcList := [] }

/-- Sample Account Directory with an ambiguous account name. -/
def sampleDirectory : ClientState :=
  { accounts := [acctA, acctB, acctA2], currentAccount := none }

/-- Sample client with account "alpha" selected. -/
def sampleClientWithHpc : ClientState :=
  { accounts := [acctA], currentAccount := some acctA }


/- Helper lemmas about the submission workflow and the job store are
placed after the definitions below. -/

theorem wf_lt {st : CloudState} (hwf : st.wf = true) :
    ∀ r ∈ st.jobs, r.jobId < st.nextJobId := by
  intro r hr
  exact of_decide_eq_true (List.all_eq_true.mp hwf r hr)

theorem find?_jobId_eq_none {n : Nat} (l : List JobRecord)
    (h : ∀ r ∈ l, r.jobId < n) :
    l.find? (fun r => r.jobId == n) = none := by
  rw [List.find?_eq_none]
  intro r hr
  simp only [beq_iff_eq]
  exact Nat.ne_of_lt (h r hr)

theorem map_update_eq_self {n : Nat} (f : JobRecord → JobRecord)
    (l : List JobRecord) (h : ∀ r ∈ l, r.jobId < n) :
    (l.map fun j => if j.jobId == n then f j else j) = l := by
  induction l with
  | nil => rfl
  | cons a l ih =>
    have ha : a.jobId ≠ n := Nat.ne_of_lt (h a (List.mem_cons_self a l))
    simp only [List.map_cons]
    rw [if_neg (by simp [ha]), ih fun r hr => h r (List.mem_cons_of_mem a hr)]

theorem updateJob_last (m n : Nat) (l : List JobRecord) (r : JobRecord)
    (f : JobRecord → JobRecord) (h : ∀ x ∈ l, x.jobId < n) (hr : r.jobId = n) :
    updateJob { nextJobId := m, jobs := l ++ [r] } n f =
      { nextJobId := m, jobs := l ++ [f r] } := by
  simp only [updateJob, List.map_append, List.map_cons, List.map_nil]
  rw [map_update_eq_self _ _ h, if_pos (by simp [hr])]

theorem find?_append_new (l : List JobRecord) (j : JobRecord) (n : Nat)
    (h : ∀ r ∈ l, r.jobId < n) (hj : j.jobId = n) :
    (l ++ [j]).find? (fun r => r.jobId == n) = some j := by
  rw [List.find?_append, find?_jobId_eq_none l h]
  simp [List.find?, hj]

theorem find?_append_old (l : List JobRecord) (j : JobRecord) (id : Nat)
    (hne : j.jobId ≠ id) :
    (l ++ [j]).find? (fun r => r.jobId == id) = l.find? (fun r => r.jobId == id) := by
  rw [List.find?_append]
  have hb : (j.jobId == id) = false := by simp [hne]
  have h1 : ([j].find? fun r => r.jobId == id) = none := by
    simp [List.find?, hb]
  rw [h1, Option.or_none]

/-- Every submission attempt, whatever its outcome, extends the job store
with exactly one fresh record carrying the newly assigned id and the
finalized bundle files, bumps the id counter, and leaves all prior records
untouched. -/
theorem submit_snd_jobs (st : CloudState) (jobName : String) (p : Payload)
    (est : Nat) (ms : Option Nat) (hwf : st.wf = true) :
    ∃ b, (submit st jobName p est ms).2 =
      { nextJobId := st.nextJobId + 1,
        jobs := st.jobs ++ [submittedRecord st jobName p b] } := by
  cases ms with
  | none =>
    refine ⟨true, ?_⟩
    dsimp only [submit, createJobRecord, finalizeBundle]
    rw [updateJob_last _ _ _ _ _ (wf_lt hwf) rfl]
    rw [updateJob_last _ _ _ _ _ (wf_lt hwf) rfl]
    rfl
  | some ceiling =>
    by_cases hc : ceiling < est
    · refine ⟨false, ?_⟩
      dsimp only [submit, createJobRecord, finalizeBundle]
      rw [if_pos hc]
      rw [updateJob_last _ _ _ _ _ (wf_lt hwf) rfl]
      rfl
    · refine ⟨true, ?_⟩
      dsimp only [submit, createJobRecord, finalizeBundle]
      rw [if_neg hc]
      rw [updateJob_last _ _ _ _ _ (wf_lt hwf) rfl]
      rw [updateJob_last _ _ _ _ _ (wf_lt hwf) rfl]
      rfl

/-- Submission preserves well-formedness of the observed platform state. -/
theorem submit_wf (st : CloudState) (jobName : String) (p : Payload)
    (est : Nat) (ms : Option Nat) (hwf : st.wf = true) :
    (submit st jobName p est ms).2.wf = true := by
  obtain ⟨b, hb⟩ := submit_snd_jobs st jobName p est ms hwf
  rw [hb]
  simp only [CloudState.wf, List.all_append, List.all_eq_true, Bool.and_eq_true]
  constructor
  · intro r hr
    exact decide_eq_true (Nat.lt_succ_of_lt (wf_lt hwf r hr))
  · intro r hr
    simp only [List.mem_singleton] at hr
    subst hr
    exact decide_eq_true (Nat.lt_succ_self _)


/-- A submission aborted by the budget check leaves the store extended with
the allocated but unsubmitted record. -/
theorem submit_budget_state (st : CloudState) (jobName : String)
    (p : Payload) (est ms : Nat) (hwf : st.wf = true) (hlt : ms < est) :
    (submit st jobName p est (some ms)).2 =
      { nextJobId := st.nextJobId + 1,
        jobs := st.jobs ++ [submittedRecord st jobName p false] } := by
  dsimp only [submit, createJobRecord, finalizeBundle]
  rw [if_pos hlt]
  rw [updateJob_last _ _ _ _ _ (wf_lt hwf) rfl]
  rfl

/-- C1: for every submission whose remote estimate exceeds the caller-given
max_spend ceiling, the workflow raises BudgetExceededError before reaching
SUBMITTED; the allocated job record exists afterwards, is retrievable via
get_job under the assigned id, is not submitted (not executed); and every
other job record of the platform state is unchanged by the abort. -/
theorem submit_budget_exceeded_aborts (st : CloudState) (jobName : String)
    (p : Payload) (est ms : Nat) (hwf : st.wf = true) (hlt : ms < est) :
    (submit st jobName p est (some ms)).1 =
        Except.error SubmitError.budgetExceeded ∧
    get_job (submit st jobName p est (some ms)).2 st.nextJobId =
        some (submittedRecord st jobName p false) ∧
    (submittedRecord st jobName p false).submitted = false ∧
    ∀ id, id ≠ st.nextJobId →
      get_job (submit st jobName p est (some ms)).2 id = get_job st id := by
  have hstate := submit_budget_state st jobName p est ms hwf hlt
  refine ⟨?_, ?_, rfl, ?_⟩
  · dsimp only [submit, createJobRecord, finalizeBundle]
    rw [if_pos hlt]
  · rw [hstate]
    exact find?_append_new _ _ _ (wf_lt hwf) rfl
  · intro id hid
    rw [hstate]
    exact find?_append_old _ _ _ fun h => hid h.symm

theorem submit_budget_exceeded_aborts_witness :
    (CloudState.mk 0 []).wf = true ∧ (5 : Nat) < 10 ∧
      ((submit ⟨0, []⟩ "my_simulation" ⟨"sim", []⟩ 10 (some 5)).1 =
          Except.error SubmitError.budgetExceeded ∧
        get_job (submit ⟨0, []⟩ "my_simulation" ⟨"sim", []⟩ 10 (some 5)).2 0 =
          some (submittedRecord ⟨0, []⟩ "my_simulation" ⟨"sim", []⟩ false) ∧
        (submittedRecord ⟨0, []⟩ "my_simulation" ⟨"sim", []⟩ false).submitted = false ∧
        ∀ id, id ≠ 0 →
          get_job (submit ⟨0, []⟩ "my_simulation" ⟨"sim", []⟩ 10 (some 5)).2 id =
            get_job ⟨0, []⟩ id) :=
  ⟨rfl, by decide,
    submit_budget_exceeded_aborts ⟨0, []⟩ "my_simulation" ⟨"sim", []⟩ 10 5
      rfl (by decide)⟩

/-- C2: re-invoking the submission workflow with identical inputs creates
two distinct remote job records under two distinct job ids; neither id was
in use before its own invocation, so no job id is ever deduplicated or
reused. -/
theorem submit_twice_distinct_job_ids (st : CloudState) (jobName : String)
    (p : Payload) (est : Nat) (ms : Option Nat) (hwf : st.wf = true) :
    ∃ id1 id2 j1 j2,
      id1 ≠ id2 ∧
      get_job (submit (submit st jobName p est ms).2 jobName p est ms).2 id1 =
        some j1 ∧
      get_job (submit (submit st jobName p est ms).2 jobName p est ms).2 id2 =
        some j2 ∧
      j1.jobId = id1 ∧ j2.jobId = id2 ∧
      get_job st id1 = none ∧ get_job st id2 = none ∧
      get_job (submit st jobName p est ms).2 id2 = none := by
  obtain ⟨b1, h1⟩ := submit_snd_jobs st jobName p est ms hwf
  have hwf1 := submit_wf st jobName p est ms hwf
  obtain ⟨b2, h2⟩ :=
    submit_snd_jobs (submit st jobName p est ms).2 jobName p est ms hwf1
  have hn1 : (submit st jobName p est ms).2.nextJobId = st.nextJobId + 1 := by
    rw [h1]
  refine ⟨st.nextJobId, st.nextJobId + 1,
    submittedRecord st jobName p b1,
    submittedRecord (submit st jobName p est ms).2 jobName p b2,
    Nat.ne_of_lt (Nat.lt_succ_self _), ?_, ?_, rfl, hn1, ?_, ?_, ?_⟩
  · rw [h2]
    show ((submit st jobName p est ms).2.jobs ++
      [submittedRecord (submit st jobName p est ms).2 jobName p b2]).find?
        (fun r => r.jobId == st.nextJobId) = _
    rw [find?_append_old _ _ _
      (by show (submit st jobName p est ms).2.nextJobId ≠ st.nextJobId
          rw [hn1]
          exact Nat.succ_ne_self _)]
    rw [h1]
    exact find?_append_new _ _ _ (wf_lt hwf) rfl
  · rw [h2]
    show ((submit st jobName p est ms).2.jobs ++
      [submittedRecord (submit st jobName p est ms).2 jobName p b2]).find?
        (fun r => r.jobId == st.nextJobId + 1) = _
    refine find?_append_new _ _ _ ?_ hn1
    intro x hx
    rw [← hn1]
    exact wf_lt hwf1 x hx
  · exact find?_jobId_eq_none _ (wf_lt hwf)
  · exact find?_jobId_eq_none _
      fun r hr => Nat.lt_succ_of_lt (wf_lt hwf r hr)
  · rw [h1]
    show (st.jobs ++ [submittedRecord st jobName p b1]).find?
      (fun r => r.jobId == st.nextJobId + 1) = none
    refine find?_jobId_eq_none _ ?_
    intro r hr
    rcases List.mem_append.mp hr with h | h
    · exact Nat.lt_succ_of_lt (wf_lt hwf r h)
    · rcases List.mem_singleton.mp h with rfl
      exact Nat.lt_succ_self _

theorem submit_twice_distinct_job_ids_witness :
    (CloudState.mk 0 []).wf = true ∧
      (∃ id1 id2 j1 j2,
        id1 ≠ id2 ∧
        get_job (submit (submit ⟨0, []⟩ "j" ⟨"sim", []⟩ 3 none).2
          "j" ⟨"sim", []⟩ 3 none).2 id1 = some j1 ∧
        get_job (submit (submit ⟨0, []⟩ "j" ⟨"sim", []⟩ 3 none).2
          "j" ⟨"sim", []⟩ 3 none).2 id2 = some j2 ∧
        j1.jobId = id1 ∧ j2.jobId = id2 ∧
        get_job ⟨0, []⟩ id1 = none ∧ get_job ⟨0, []⟩ id2 = none ∧
        get_job (submit ⟨0, []⟩ "j" ⟨"sim", []⟩ 3 none).2 id2 = none) :=
  ⟨rfl, submit_twice_distinct_job_ids ⟨0, []⟩ "j" ⟨"sim", []⟩ 3 none rfl⟩

/-- C6: for every submission, the job record created by it stores as its
primary file a name derived deterministically from the job id the platform
assigned when the record was created. -/
theorem submit_primary_file_named_from_job_id (st : CloudState)
    (jobName : String) (p : Payload) (est : Nat) (ms : Option Nat)
    (hwf : st.wf = true) :
    ∃ j, get_job (submit st jobName p est ms).2 st.nextJobId = some j ∧
      j.jobId = st.nextJobId ∧
      j.files.head? = some (primaryFileName j.jobId) := by
  obtain ⟨b, h⟩ := submit_snd_jobs st jobName p est ms hwf
  refine ⟨submittedRecord st jobName p b, ?_, rfl, rfl⟩
  rw [h]
  exact find?_append_new _ _ _ (wf_lt hwf) rfl

theorem submit_primary_file_named_from_job_id_witness :
    (CloudState.mk 4 []).wf = true ∧
      (∃ j, get_job (submit ⟨4, []⟩ "j" ⟨"sim", ["geom.step"]⟩ 2 (some 5)).2 4 =
          some j ∧
        j.jobId = 4 ∧ j.files.head? = some (primaryFileName j.jobId)) :=
  ⟨rfl, submit_primary_file_named_from_job_id ⟨4, []⟩ "j" ⟨"sim", ["geom.step"]⟩
    2 (some 5) rfl⟩


/-- C3: `set_current_account` requires exactly one selector: with both name
and id it raises ValueError, with neither it raises ValueError, and with a
single selector matching zero accounts it raises NotFoundError; in all
three failure cases the current-account selection is unchanged. -/
theorem set_current_account_selector_errors (st : ClientState) :
    (∀ n i, set_current_account st (some n) (some i) =
        Except.error ClientError.valueError ∧
      runSetCurrent st (some n) (some i) = st) ∧
    (set_current_account st none none = Except.error ClientError.valueError ∧
      runSetCurrent st none none = st) ∧
    (∀ n, (∀ a ∈ st.accounts, a.accountName ≠ n) →
      set_current_account st (some n) none =
        Except.error ClientError.notFoundError ∧
      runSetCurrent st (some n) none = st) ∧
    (∀ i, (∀ a ∈ st.accounts, a.accountId ≠ i) →
      set_current_account st none (some i) =
        Except.error ClientError.notFoundError ∧
      runSetCurrent st none (some i) = st) := by
  refine ⟨fun n i => ⟨rfl, rfl⟩, ⟨rfl, rfl⟩, ?_, ?_⟩
  · intro n h
    have hf : st.accounts.find? (fun a => a.accountName == n) = none := by
      rw [List.find?_eq_none]
      intro a ha
      simp [h a ha]
    constructor
    · simp [set_current_account, hf]
    · simp [runSetCurrent, set_current_account, hf]
  · intro i h
    have hf : st.accounts.find? (fun a => a.accountId == i) = none := by
      rw [List.find?_eq_none]
      intro a ha
      simp [h a ha]
    constructor
    · simp [set_current_account, hf]
    · simp [runSetCurrent, set_current_account, hf]

theorem set_current_account_selector_errors_witness :
    (set_current_account sampleDirectory (some "alpha") (some "id-a") =
        Except.error ClientError.valueError ∧
      runSetCurrent sampleDirectory (some "alpha") (some "id-a") =
        sampleDirectory) ∧
    (set_current_account sampleDirectory none none =
        Except.error ClientError.valueError ∧
      runSetCurrent sampleDirectory none none = sampleDirectory) ∧
    ((∀ a ∈ sampleDirectory.accounts, a.accountName ≠ "gamma") ∧
      set_current_account sampleDirectory (some "gamma") none =
        Except.error ClientError.notFoundError ∧
      runSetCurrent sampleDirectory (some "gamma") none = sampleDirectory) ∧
    ((∀ a ∈ sampleDirectory.accounts, a.accountId ≠ "id-z") ∧
      set_current_account sampleDirectory none (some "id-z") =
        Except.error ClientError.notFoundError ∧
      runSetCurrent sampleDirectory none (some "id-z") = sampleDirectory) :=
  ⟨(set_current_account_selector_errors sampleDirectory).1 "alpha" "id-a",
    (set_current_account_selector_errors sampleDirectory).2.1,
    ⟨by decide,
      (set_current_account_selector_errors sampleDirectory).2.2.1 "gamma"
        (by decide)⟩,
    ⟨by decide,
      (set_current_account_selector_errors sampleDirectory).2.2.2 "id-z"
        (by decide)⟩⟩

/-- A successful `find?` splits its list at the first matching element. -/
theorem find?_first_match {α : Type} (p : α → Bool) :
    ∀ (l : List α) (a : α), l.find? p = some a →
      ∃ l1 l2, l = l1 ++ a :: l2 ∧ ∀ b ∈ l1, p b = false := by
  intro l
  induction l with
  | nil => intro a h; cases h
  | cons x l ih =>
    intro a h
    cases hp : p x with
    | true =>
      have hx : x = a := by
        rw [List.find?_cons, hp] at h
        exact Option.some.inj h
      subst hx
      exact ⟨[], l, rfl, by intro b hb; cases hb⟩
    | false =>
      rw [List.find?_cons, hp] at h
      obtain ⟨l1, l2, hsplit, hall⟩ := ih a h
      refine ⟨x :: l1, l2, by rw [hsplit, List.cons_append], ?_⟩
      intro b hb
      rcases List.mem_cons.mp hb with rfl | hb
      · exact hp
      · exact hall b hb

/-- C4: for every account name in `list_accounts`, setting the current
account by that name succeeds, `currentAccount` then carries that name, and
the account chosen is the first account with that name in the listed order
(deterministic selection under ambiguity). -/
theorem set_current_by_name_roundtrip (st : ClientState) (n : String)
    (hn : n ∈ (list_accounts st).map (fun a => a.accountName)) :
    ∃ a, set_current_account st (some n) none =
        Except.ok { st with currentAccount := some a } ∧
      (runSetCurrent st (some n) none).currentAccount = some a ∧
      a.accountName = n ∧
      ∃ l1 l2, st.accounts = l1 ++ a :: l2 ∧ ∀ b ∈ l1, b.accountName ≠ n := by
  obtain ⟨a0, ha0, hname⟩ := List.mem_map.mp hn
  have hsome : (st.accounts.find? (fun a => a.accountName == n)).isSome = true := by
    rw [List.find?_isSome]
    exact ⟨a0, ha0, by simp [hname]⟩
  obtain ⟨a, hfind⟩ := Option.isSome_iff_exists.mp hsome
  have haname : a.accountName = n := by
    have := List.find?_some hfind
    simpa using this
  obtain ⟨l1, l2, hsplit, hall⟩ := find?_first_match _ st.accounts a hfind
  refine ⟨a, ?_, ?_, haname, l1, l2, hsplit, ?_⟩
  · simp [set_current_account, hfind]
  · simp [runSetCurrent, set_current_account, hfind]
  · intro b hb
    have := hall b hb
    simpa using this

theorem set_current_by_name_roundtrip_witness :
    "alpha" ∈ (list_accounts sampleDirectory).map (fun a => a.accountName) ∧
    ∃ a, set_current_account sampleDirectory (some "alpha") none =
        Except.ok { sampleDirectory with currentAccount := some a } ∧
      (runSetCurrent sampleDirectory (some "alpha") none).currentAccount =
        some a ∧
      a.accountName = "alpha" ∧
      ∃ l1 l2, sampleDirectory.accounts = l1 ++ a :: l2 ∧
        ∀ b ∈ l1, b.accountName ≠ "alpha" :=
  ⟨by decide, set_current_by_name_roundtrip sampleDirectory "alpha" (by decide)⟩

/-- C5: the derived cloud and region collections are duplicate-free: every
cloud provider and region present in the HPC listing appears exactly once
in the respective result, even when several descriptors share it. -/
theorem available_hpc_no_duplicates (st : ClientState) :
    (available_hpc_clouds st).Nodup ∧ (available_hpc_regions st).Nodup ∧
    (∀ c, c ∈ (get_hpc_list st).map (fun h => h.hpcCloud) →
      (available_hpc_clouds st).count c = 1) ∧
    (∀ r, r ∈ (get_hpc_list st).map (fun h => h.hpcRegion) →
      (available_hpc_regions st).count r = 1) := by
  refine ⟨List.nodup_dedup _, List.nodup_dedup _, ?_, ?_⟩
  · intro c hc
    exact List.count_eq_one_of_mem (List.nodup_dedup _) (List.mem_dedup.mpr hc)
  · intro r hr
    exact List.count_eq_one_of_mem (List.nodup_dedup _) (List.mem_dedup.mpr hr)

theorem available_hpc_no_duplicates_witness :
    "AWS" ∈ (get_hpc_list sampleClientWithHpc).map (fun h => h.hpcCloud) ∧
    "us-east-1" ∈ (get_hpc_list sampleClientWithHpc).map (fun h => h.hpcRegion) ∧
    (available_hpc_clouds sampleClientWithHpc).count "AWS" = 1 ∧
    (available_hpc_regions sampleClientWithHpc).count "us-east-1" = 1 :=
  ⟨by decide, by decide,
    (available_hpc_no_duplicates sampleClientWithHpc).2.2.1 "AWS" (by decide),
    (available_hpc_no_duplicates sampleClientWithHpc).2.2.2 "us-east-1"
      (by decide)⟩

/-- C7: `stop()` on a job in a terminal status is a no-op reporting the job
was already terminal (no cancellation, no error, record unchanged); on a
non-terminal job it requests cancellation. -/
theorem job_stop_terminal_noop (j : JobRecord) :
    (j.status.isTerminal = true →
      j.stop = (StopResult.alreadyTerminal, j)) ∧
    (j.status.isTerminal = false →
      j.stop.1 = StopResult.cancellationRequested ∧
      j.stop.2.cancelRequested = true) := by
  constructor
  · intro h
    simp [JobRecord.stop, h]
  · intro h
    simp [JobRecord.stop, h]

theorem job_stop_terminal_noop_witness :
    (JobRecord.mk 1 "done-job" [] true JobStatus.finished false).status.isTerminal
        = true ∧
    (JobRecord.mk 1 "done-job" [] true JobStatus.finished false).stop =
      (StopResult.alreadyTerminal,
        JobRecord.mk 1 "done-job" [] true JobStatus.finished false) ∧
    (JobRecord.mk 2 "live-job" [] true JobStatus.running false).status.isTerminal
        = false ∧
    (JobRecord.mk 2 "live-job" [] true JobStatus.running false).stop.1 =
      StopResult.cancellationRequested :=
  ⟨rfl,
    (job_stop_terminal_noop
      (JobRecord.mk 1 "done-job" [] true JobStatus.finished false)).1 rfl,
    rfl,
    ((job_stop_terminal_noop
      (JobRecord.mk 2 "live-job" [] true JobStatus.running false)).2 rfl).1⟩

/-- A tracked id stays tracked and `add_simulation` is the identity on a
tracker that already tracks the id. -/
theorem add_simulation_of_exists (m : JobProgressManager) (id : String)
    (h : sim_exists m id = true) : add_simulation m id = m := by
  simp [add_simulation, h]

/-- After `add_simulation`, the id is tracked. -/
theorem sim_exists_add (m : JobProgressManager) (id : String) :
    sim_exists (add_simulation m id) id = true := by
  by_cases h : sim_exists m id = true
  · rw [add_simulation_of_exists m id h]
    exact h
  · have hb : sim_exists m id = false := eq_false_of_ne_true h
    simp only [add_simulation, hb, Bool.false_eq_true, if_false]
    simp [sim_exists, List.any_append]

/-- C8: `add_simulation(id)` creates an entry when none exists and is
idempotent: when an entry for the id already exists a further call leaves
the whole mapping unchanged. -/
theorem add_simulation_idempotent (m : JobProgressManager) (id : String) :
    (sim_exists m id = false → sim_exists (add_simulation m id) id = true) ∧
    (sim_exists m id = true → add_simulation m id = m) ∧
    add_simulation (add_simulation m id) id = add_simulation m id := by
  refine ⟨fun _ => sim_exists_add m id, add_simulation_of_exists m id, ?_⟩
  exact add_simulation_of_exists _ id (sim_exists_add m id)

theorem add_simulation_idempotent_witness :
    sim_exists ⟨[]⟩ "sim-1" = false ∧
    sim_exists (add_simulation ⟨[]⟩ "sim-1") "sim-1" = true ∧
    add_simulation (add_simulation ⟨[]⟩ "sim-1") "sim-1" =
      add_simulation ⟨[]⟩ "sim-1" :=
  ⟨rfl, (add_simulation_idempotent ⟨[]⟩ "sim-1").1 rfl,
    (add_simulation_idempotent ⟨[]⟩ "sim-1").2.2⟩


/-- C9: the notebook polling loop repeats `status()` and exits only when a
call returns exactly "FINISHED": on every trace on which `status()` never
returns "FINISHED" — in particular when the job ends in a different
terminal status such as FAILED or STOPPED — no number of iterations makes
the loop exit, and whenever the loop does exit, the exiting call returned
exactly "FINISHED". -/
theorem poll_loop_finished_only (trace : Nat → String) :
    ((∀ n, trace n ≠ "FINISHED") → ∀ fuel i, pollLoop trace fuel i = none) ∧
    (∀ fuel i k, pollLoop trace fuel i = some k → trace k = "FINISHED") := by
  constructor
  · intro h fuel
    induction fuel with
    | zero => intro i; rfl
    | succ fuel ih =>
      intro i
      have hb : (trace i == "FINISHED") = false := by simp [h i]
      simp only [pollLoop, hb, Bool.false_eq_true, if_false]
      exact ih (i + 1)
  · intro fuel
    induction fuel with
    | zero => intro i k h; cases h
    | succ fuel ih =>
      intro i k h
      by_cases ht : trace i = "FINISHED"
      · have hb : (trace i == "FINISHED") = true := by simp [ht]
        simp only [pollLoop, hb, if_true] at h
        rw [← Option.some.inj h]
        exact ht
      · have hb : (trace i == "FINISHED") = false := by simp [ht]
        simp only [pollLoop, hb, Bool.false_eq_true, if_false] at h
        exact ih (i + 1) k h

theorem poll_loop_finished_only_witness :
    (∀ n : Nat, (fun _ : Nat => "FAILED") n ≠ "FINISHED") ∧
    pollLoop (fun _ => "FAILED") 100 0 = none :=
  ⟨fun _ => by show "FAILED" ≠ "FINISHED"; decide,
    (poll_loop_finished_only (fun _ => "FAILED")).1
      (fun _ => by show "FAILED" ≠ "FINISHED"; decide) 100 0⟩

/-- When the key is already present, replacement keeps the key sequence. -/
theorem dictInsert_keys_present (d : List (String × Account)) (k : String)
    (v : Account) (hk : d.any (fun p => p.1 == k) = true) :
    (dictInsert d k v).map Prod.fst = d.map Prod.fst := by
  simp only [dictInsert, hk, if_true, List.map_map]
  refine List.map_congr_left ?_
  intro p _
  by_cases hp : p.1 = k
  · simp [hp]
  · simp [hp]

/-- When the key is absent, insertion appends it to the key sequence. -/
theorem dictInsert_keys_absent (d : List (String × Account)) (k : String)
    (v : Account) (hk : d.any (fun p => p.1 == k) = false) :
    (dictInsert d k v).map Prod.fst = d.map Prod.fst ++ [k] := by
  simp [dictInsert, hk]

/-- Dictionary insertion preserves distinctness of the keys. -/
theorem dictInsert_keys_nodup (d : List (String × Account)) (k : String)
    (v : Account) (h : (d.map Prod.fst).Nodup) :
    ((dictInsert d k v).map Prod.fst).Nodup := by
  by_cases hk : d.any (fun p => p.1 == k) = true
  · rw [dictInsert_keys_present d k v hk]
    exact h
  · have hk2 : d.any (fun p => p.1 == k) = false := eq_false_of_ne_true hk
    rw [dictInsert_keys_absent d k v hk2]
    refine List.Nodup.append h (List.nodup_singleton k)
      (List.disjoint_singleton.mpr ?_)
    intro hmem
    obtain ⟨p, hp, hpk⟩ := List.mem_map.mp hmem
    have := List.any_eq_false.mp hk2 p hp
    exact this (by simp [hpk])

/-- Keys already present survive dictionary insertion. -/
theorem mem_keys_dictInsert (d : List (String × Account)) (k : String)
    (v : Account) (x : String) (hx : x ∈ d.map Prod.fst) :
    x ∈ (dictInsert d k v).map Prod.fst := by
  by_cases hk : d.any (fun p => p.1 == k) = true
  · rw [dictInsert_keys_present d k v hk]
    exact hx
  · rw [dictInsert_keys_absent d k v (eq_false_of_ne_true hk)]
    exact List.mem_append_left _ hx

/-- The inserted key is present after dictionary insertion. -/
theorem key_mem_dictInsert (d : List (String × Account)) (k : String)
    (v : Account) : k ∈ (dictInsert d k v).map Prod.fst := by
  by_cases hk : d.any (fun p => p.1 == k) = true
  · rw [dictInsert_keys_present d k v hk]
    obtain ⟨p, hp, hpk⟩ := List.any_eq_true.mp hk
    have hpk2 : p.1 = k := by simpa using hpk
    exact hpk2 ▸ List.mem_map_of_mem Prod.fst hp
  · rw [dictInsert_keys_absent d k v (eq_false_of_ne_true hk)]
    exact List.mem_append_right _ (List.mem_singleton_self k)

/-- Folding the visible accounts into the name-keyed dictionary keeps the
keys distinct, keeps previously present keys, and registers every visible
account name. -/
theorem account_list_foldl_spec :
    ∀ (accounts : List Account) (d : List (String × Account)),
      (d.map Prod.fst).Nodup →
      (((accounts.foldl (fun d a => dictInsert d a.accountName a) d).map
          Prod.fst).Nodup ∧
        (∀ x, x ∈ d.map Prod.fst →
          x ∈ (accounts.foldl (fun d a => dictInsert d a.accountName a) d).map
            Prod.fst) ∧
        ∀ a ∈ accounts,
          a.accountName ∈
            (accounts.foldl (fun d a => dictInsert d a.accountName a) d).map
              Prod.fst) := by
  intro accounts
  induction accounts with
  | nil =>
    intro d hd
    exact ⟨hd, fun x hx => hx, by intro a ha; cases ha⟩
  | cons a accounts ih =>
    intro d hd
    obtain ⟨h1, h2, h3⟩ :=
      ih (dictInsert d a.accountName a) (dictInsert_keys_nodup d _ a hd)
    refine ⟨h1, fun x hx => h2 x (mem_keys_dictInsert d _ a x hx), ?_⟩
    intro b hb
    rcases List.mem_cons.mp hb with rfl | hb
    · exact h2 _ (key_mem_dictInsert d b.accountName b)
    · exact h3 b hb

/-- C10: the name-keyed `account_list` dictionary holds at most one Account
per name — its key sequence is duplicate-free — while every visible
account name is present as a key, and looking a listed name up yields a
single entry carrying exactly that name. -/
theorem account_list_at_most_one_per_name (accounts : List Account) :
    ((account_list accounts).map Prod.fst).Nodup ∧
    (∀ a ∈ accounts, a.accountName ∈ (account_list accounts).map Prod.fst) ∧
    ∀ a ∈ accounts, ∃ e, (account_list accounts).find?
        (fun p => p.1 == a.accountName) = some e ∧ e.1 = a.accountName := by
  obtain ⟨h1, _, h3⟩ := account_list_foldl_spec accounts [] List.nodup_nil
  refine ⟨h1, h3, ?_⟩
  intro a ha
  obtain ⟨p, hp, hpk⟩ := List.mem_map.mp (h3 a ha)
  have hsome : ((account_list accounts).find?
      (fun p => p.1 == a.accountName)).isSome = true := by
    rw [List.find?_isSome]
    exact ⟨p, hp, by simp [hpk]⟩
  obtain ⟨e, he⟩ := Option.isSome_iff_exists.mp hsome
  refine ⟨e, he, ?_⟩
  have := List.find?_some he
  simpa using this

theorem account_list_at_most_one_per_name_witness :
    ((account_list [acctA, acctB, acctA2]).map Prod.fst).Nodup ∧
    acctA2 ∈ [acctA, acctB, acctA2] ∧
    acctA2.accountName ∈ (account_list [acctA, acctB, acctA2]).map Prod.fst ∧
    ∃ e, (account_list [acctA, acctB, acctA2]).find?
        (fun p => p.1 == acctA2.accountName) = some e ∧
      e.1 = acctA2.accountName :=
  ⟨(account_list_at_most_one_per_name [acctA, acctB, acctA2]).1,
    by decide,
    (account_list_at_most_one_per_name [acctA, acctB, acctA2]).2.1 acctA2
      (by decide),
    (account_list_at_most_one_per_name [acctA, acctB, acctA2]).2.2 acctA2
      (by decide)⟩

end OnScale
